import Mathlib

set_option autoImplicit false

namespace Meteor

/-!
Shallow embedding of the store reconciliation engine of
`packages/mongo/collection/collection.js`: the wrapped client/server stores
(`beginUpdate`, `update`, soft-merge normalization), the selector rewriting
guard (`Mongo.Collection._rewriteSelector`), the snapshot publisher
(`Mongo.Collection._publishCursor`) and the store registration logic of
`_maybeSetUpReplication`.

The Document Table (minimongo's `LocalCollection`) and `EJSON` are external
collaborators of the excerpted code; their primitive operations (point
lookup, insert, update-by-id, remove-by-id, field-set/field-unset, deep
equality) are modelled from the spec where noted.
-/

/-- A field value: the embedded fragment of the EJSON value universe.
Deep EJSON equality on these values is decidable equality. -/
inductive Value where
  | vNum (n : Int)
  | vStr (s : String)
  | vBool (b : Bool)
deriving DecidableEq, Repr

/-- Modelled from the spec: `EJSON.equals` (the `ejson` package is an external
collaborator) compares two possibly-undefined JavaScript values; two
`undefined` values are equal, a defined and an undefined value are not, and
two defined values are compared by deep equality. -/
def ejsonEquals (a b : Option Value) : Bool :=
  decide (a = b)

/-- A JavaScript object holding document fields: an ordered association list
from field names to values, where a field may be explicitly bound to
`undefined` (`none`, the absent sentinel). -/
abbrev Obj := List (String × Option Value)

namespace Obj

/-- JavaScript property read `o[k]`: `undefined` when the key is missing or
explicitly bound to `undefined`. -/
def get : Obj → String → Option Value
  | [], _ => none
  | (k, v) :: rest, key => if k = key then v else get rest key

/-- JavaScript `k in o`: the key is present, even when bound to `undefined`. -/
def hasKey : Obj → String → Bool
  | [], _ => false
  | (k, _) :: rest, key => if k = key then true else hasKey rest key

/-- The key list of an object, in insertion order (`Object.keys`). -/
def keys (o : Obj) : List String :=
  o.map Prod.fst

/-- Modelled from the spec: the Document Table's field-set primitive
(a `$set` entry of an update modifier): bind the field to the value,
overwriting an existing binding. -/
def setField : Obj → String → Value → Obj
  | [], key, v => [(key, some v)]
  | (k, w) :: rest, key, v =>
    if k = key then (k, some v) :: rest else (k, w) :: setField rest key v

/-- Modelled from the spec: the Document Table's field-unset primitive
(the `$unset` entries of an update modifier): drop every named field. -/
def removeFields (o : Obj) (ks : List String) : Obj :=
  o.filter (fun kv => decide (kv.1 ∉ ks))

end Obj

/-- An update modifier as built by the `changed` branch of the store
`update` functions: the `$set` entries and the `$unset` keys. -/
structure Modifier where
  set : List (String × Value)
  unset : List String
deriving DecidableEq, Repr

namespace Modifier

/-- `Object.keys(modifier).length > 0` is false: neither a `$set` nor a
`$unset` key was ever created. -/
def isEmpty (m : Modifier) : Bool :=
  m.set.isEmpty && m.unset.isEmpty

/-- All field names the modifier touches. -/
def keys (m : Modifier) : List String :=
  m.set.map Prod.fst ++ m.unset

end Modifier

/-- Modelled from the spec: applying an update modifier to a document's
field set — each `$set` entry binds its field, each `$unset` key drops its
field. -/
def Obj.applyModifier (o : Obj) (m : Modifier) : Obj :=
  (m.set.foldl (fun acc kv => acc.setField kv.1 kv.2) o).removeFields m.unset

/-- The Document Table contents: identifier-keyed documents (each document's
non-identifier fields are the stored `Obj`; the identifier is the key). -/
abbrev Docs := List (String × Obj)

namespace Docs

/-- Point lookup `self._collection._docs.get(mongoId)`. -/
def get : Docs → String → Option Obj
  | [], _ => none
  | (i, o) :: rest, id => if i = id then some o else get rest id

/-- Modelled from the spec: Document Table `insert(doc)` — store a new
document under its identifier. -/
def insert (ds : Docs) (id : String) (fields : Obj) : Docs :=
  (id, fields) :: ds

/-- Modelled from the spec: Document Table `remove(id)` — drop the document
stored under the identifier. -/
def remove (ds : Docs) (id : String) : Docs :=
  ds.filter (fun e => decide (e.1 ≠ id))

/-- Modelled from the spec: Document Table `remove({})` — drop every
document. -/
def removeAll (_ : Docs) : Docs :=
  []

/-- Modelled from the spec: Document Table `update(id, modifier)` with a
`$set`/`$unset` modifier — apply the modifier to the document stored under
the identifier. -/
def applyModifier (ds : Docs) (id : String) (m : Modifier) : Docs :=
  ds.map (fun e => if e.1 = id then (e.1, e.2.applyModifier m) else e)

/-- Modelled from the spec: Document Table `update(id, replacement)` with a
full replacement document — a full-document update, never a partial
merge. -/
def updateReplace (ds : Docs) (id : String) (fields : Obj) : Docs :=
  ds.map (fun e => if e.1 = id then (e.1, fields) else e)

end Docs

/-- An inbound change message (`msg` wire shape): `added`, `changed`,
`removed`, `replace`, or a message of an unrecognized kind. -/
inductive Msg where
  | added (id : String) (fields : Obj)
  | changed (id : String) (fields : Obj)
  | removed (id : String)
  | replace (id : String) (doc : Option Obj)
  | unknown (id : String)
deriving DecidableEq, Repr

/-- The identifier carried by a message (`MongoID.idParse(msg.id)`). -/
def Msg.msgId : Msg → String
  | .added id _ => id
  | .changed id _ => id
  | .removed id => id
  | .replace id _ => id
  | .unknown id => id

/-- The delta computation of the `changed` branch of both store `update`
functions: for each field of the message (left to right), skip it when the
incoming value `EJSON.equals` the current value, mark it for `$unset` when
it is `undefined`, and mark it for `$set` otherwise. -/
def computeModifier (doc : Obj) : Obj → Modifier
  | [] => { set := [], unset := [] }
  | (k, v) :: rest =>
    let m := computeModifier doc rest
    if ejsonEquals (doc.get k) v then m
    else
      match v with
      | none => { m with unset := k :: m.unset }
      | some w => { m with set := (k, w) :: m.set }

/-- A primitive Document Table operation issued by a store `update` call. -/
inductive TableOp where
  | insertOp (id : String) (fields : Obj)
  | removeOp (id : String)
  | updateModOp (id : String) (m : Modifier)
  | updateReplaceOp (id : String) (fields : Obj)
deriving DecidableEq, Repr

/-- The shared message dispatch of `wrappedStoreClient.update` and
`wrappedStoreServer.update` (after the client-only soft-merge
normalization): `doc` is the table lookup for the message's identifier made
at the top of `update`. Returns the new table contents and the primitive
table operations performed, or the thrown error. -/
def applyMsg (ds : Docs) (doc : Option Obj) : Msg → Except String (Docs × List TableOp)
  | .replace id rep =>
    match rep with
    | none =>
      match doc with
      | some _ => .ok (ds.remove id, [.removeOp id])
      | none => .ok (ds, [])
    | some r =>
      match doc with
      | none => .ok (ds.insert id r, [.insertOp id r])
      | some _ => .ok (ds.updateReplace id r, [.updateReplaceOp id r])
  | .added id fields =>
    match doc with
    | some _ => .error "Expected not to find a document already present for an add"
    | none => .ok (ds.insert id fields, [.insertOp id fields])
  | .removed id =>
    match doc with
    | none => .error "Expected to find a document already present for removed"
    | some _ => .ok (ds.remove id, [.removeOp id])
  | .changed id fields =>
    match doc with
    | none => .error "Expected to find a document to change"
    | some d =>
      if fields.length > 0 then
        let m := computeModifier d fields
        if m.isEmpty then .ok (ds, [])
        else .ok (ds.applyModifier id m, [.updateModOp id m])
      else .ok (ds, [])
  | .unknown _ => .error "I dont know how to deal with this message"

/-- The soft-merge normalization performed by `wrappedStoreClient.update`
under `Meteor.isClient`: an `added` for a present document becomes
`changed`; a `removed` for an absent document returns early (`none`); a
`changed` for an absent document becomes `added` with every
explicitly-`undefined` field deleted. -/
def softNormalize (doc : Option Obj) : Msg → Option Msg
  | .added id fields =>
    match doc with
    | some _ => some (.changed id fields)
    | none => some (.added id fields)
  | .removed id =>
    match doc with
    | none => none
    | some _ => some (.removed id)
  | .changed id fields =>
    match doc with
    | none => some (.added id (fields.filter (fun kv => kv.2.isSome)))
    | some _ => some (.changed id fields)
  | m => some m

/-- `wrappedStoreClient.update` (soft mode): look the document up once,
normalize the message, then dispatch. -/
def wrappedStoreClientUpdate (ds : Docs) (msg : Msg) : Except String (Docs × List TableOp) :=
  let doc := ds.get msg.msgId
  match softNormalize doc msg with
  | none => .ok (ds, [])
  | some m => applyMsg ds doc m

/-- `wrappedStoreServer.update` (strict mode): look the document up and
dispatch with no normalization. -/
def wrappedStoreServerUpdate (ds : Docs) (msg : Msg) : Except String (Docs × List TableOp) :=
  applyMsg ds (ds.get msg.msgId) msg

/-- The store `update` entry point, parameterized by the mode flag
(`Meteor.isClient`): soft mode is the client store, strict mode the server
store. -/
def storeUpdate (isClient : Bool) (ds : Docs) (msg : Msg) : Except String (Docs × List TableOp) :=
  if isClient then wrappedStoreClientUpdate ds msg else wrappedStoreServerUpdate ds msg

/-- The observable Document Table state around batch framing: the stored
documents and whether observer notifications are paused. -/
structure Table where
  docs : Docs
  paused : Bool
deriving DecidableEq, Repr

/-- Modelled from the spec: the Document Table's `pauseObservers()` — defer
notification dispatch; mutations are still accepted. -/
def Table.pauseObservers (t : Table) : Table :=
  { t with paused := true }

/-- `wrappedStoreClient.beginUpdate` / `wrappedStoreServer.beginUpdate`
(both have the same body modulo async): pause observers when
`batchSize > 1 || reset`, then when `reset` remove every document. -/
def beginUpdate (t : Table) (batchSize : Nat) (reset : Bool) : Table :=
  let t1 := if batchSize > 1 || reset then t.pauseObservers else t
  if reset then { t1 with docs := t1.docs.removeAll } else t1

/-- An identifier-like scalar accepted by `LocalCollection._selectorIsId`:
a string or a number. -/
inductive IdScalar where
  | iNum (n : Int)
  | iStr (s : String)
deriving DecidableEq, Repr

/-- The value an identifier-like scalar denotes. -/
def IdScalar.toValue : IdScalar → Value
  | .iNum n => .vNum n
  | .iStr s => .vStr s

/-- A selector as seen by `Mongo.Collection._rewriteSelector`: a falsy
non-scalar primitive (`undefined`, `null`, `false`), an identifier-like
scalar, an array, or a selector object. -/
inductive Selector where
  | falsyPrim
  | scalar (v : IdScalar)
  | arr (l : List Value)
  | obj (o : Obj)
deriving DecidableEq, Repr

/-- JavaScript truthiness of a value: `0`, the empty string and `false` are
falsy. -/
def jsFalsy : Value → Bool
  | .vNum n => decide (n = 0)
  | .vStr s => decide (s = "")
  | .vBool b => !b

/-- JavaScript truthiness of a possibly-undefined value: `undefined` is
falsy. -/
def jsFalsyOpt : Option Value → Bool
  | none => true
  | some v => jsFalsy v

/-- JavaScript `fallbackId || Random.id()`: the fallback when it is given
and truthy, otherwise the freshly generated random identifier. -/
def jsOr (fallbackId : Option String) (freshId : String) : String :=
  match fallbackId with
  | some s => if s = "" then freshId else s
  | none => freshId

/-- `Mongo.Collection._rewriteSelector(selector, { fallbackId })`, with
`freshId` standing for the `Random.id()` call: expand an identifier-like
scalar to `{_id: scalar}`; reject arrays; rewrite a falsy selector or a
selector object whose `_id` is present but falsy to
`{_id: fallbackId || freshId}`; return every other selector unchanged. -/
def rewriteSelector (freshId : String) (fallbackId : Option String) (sel : Selector) :
    Except String Selector :=
  let sel1 :=
    match sel with
    | .scalar v => Selector.obj [("_id", some v.toValue)]
    | s => s
  match sel1 with
  | .arr _ => .error "Mongo selector cant be an array."
  | .falsyPrim => .ok (.obj [("_id", some (.vStr (jsOr fallbackId freshId)))])
  | .scalar v => .ok (.scalar v)
  | .obj o =>
    if o.hasKey "_id" && jsFalsyOpt (o.get "_id") then
      .ok (.obj [("_id", some (.vStr (jsOr fallbackId freshId)))])
    else
      .ok (.obj o)

/-- An event delivered by the live query's `observeChanges` to the
callbacks installed by `Mongo.Collection._publishCursor`. -/
inductive CursorEvent where
  | added (id : String) (fields : Obj)
  | changed (id : String) (fields : Obj)
  | removed (id : String)
deriving DecidableEq, Repr

/-- A call made on the downstream subscription object `sub`. -/
inductive SubCall where
  | added (collection : String) (id : String) (fields : Obj)
  | changed (collection : String) (id : String) (fields : Obj)
  | removed (collection : String) (id : String)
  | ready
deriving DecidableEq, Repr

/-- The three `observeChanges` callbacks installed by `_publishCursor`:
each event is forwarded as the corresponding `sub` call on the named
collection, with the identifier and fields passed through unchanged. -/
def publishCursorCallback (collection : String) : CursorEvent → SubCall
  | .added id fields => .added collection id fields
  | .changed id fields => .changed collection id fields
  | .removed id => .removed collection id

/-- The `nonMutatingCallbacks` option `_publishCursor` passes to
`observeChanges`: publications do not mutate the documents. -/
def publishCursorNonMutatingCallbacks : Bool :=
  true

/-- The handle returned by `observeChanges`, with its stopped state. -/
structure ObserveHandle where
  stopped : Bool
deriving DecidableEq, Repr

/-- Stopping an observe handle. -/
def ObserveHandle.stop (h : ObserveHandle) : ObserveHandle :=
  { h with stopped := true }

/-- The stop callback `_publishCursor` registers with `sub.onStop`: it stops
the underlying observe handle. -/
def publishCursorOnStop (h : ObserveHandle) : ObserveHandle :=
  h.stop

/-- The stream of `sub` calls `_publishCursor` produces from a stream of
live-query events: each event forwarded through the installed callbacks,
and nothing else — in particular no `ready` call. -/
def publishCursorForward (collection : String) (events : List CursorEvent) : List SubCall :=
  events.map (publishCursorCallback collection)

/-- The result of `registerStoreClient`/`registerStoreServer` as observed by
`_maybeSetUpReplication`: either a plain value (falsy on conflict) or a
thenable resolving to the registration outcome. -/
inductive RegisterStoreResult where
  | direct (ok : Bool)
  | promise (ok : Bool)
deriving DecidableEq, Repr

/-- The tail of `_maybeSetUpReplication` after building the wrapped stores:
a falsy registration result — returned directly or resolved from the
thenable — logs the duplicate-collection warning; nothing is thrown. The
returned flag says whether the warning was logged. -/
def maybeSetUpReplication : RegisterStoreResult → Except String Bool
  | .direct ok => .ok (!ok)
  | .promise ok => .ok (!ok)

/-! Frame lemmas about the modelled Document Table operations. -/

theorem Obj.get_setField_ne (o : Obj) (key k' : String) (v : Value) (h : k' ≠ key) :
    (o.setField key v).get k' = o.get k' := by
  induction o with
  | nil => simp [Obj.setField, Obj.get, Ne.symm h]
  | cons kv rest ih =>
    obtain ⟨k, w⟩ := kv
    by_cases hk : k = key
    · subst hk
      simp [Obj.setField, Obj.get, Ne.symm h]
    · simp [Obj.setField, hk, Obj.get, ih]

theorem Obj.get_foldlSet_notMem (l : List (String × Value)) (o : Obj) (k : String)
    (h : k ∉ l.map Prod.fst) :
    (l.foldl (fun acc kv => Obj.setField acc kv.1 kv.2) o).get k = o.get k := by
  induction l generalizing o with
  | nil => rfl
  | cons kv rest ih =>
    simp only [List.map_cons, List.mem_cons, not_or] at h
    simp only [List.foldl_cons]
    rw [ih _ h.2, Obj.get_setField_ne _ _ _ _ h.1]

theorem Obj.get_removeFields_notMem (o : Obj) (ks : List String) (k : String) (h : k ∉ ks) :
    (o.removeFields ks).get k = o.get k := by
  induction o with
  | nil => rfl
  | cons kv rest ih =>
    obtain ⟨k1, v1⟩ := kv
    by_cases hk : k1 ∈ ks
    · have hne : k1 ≠ k := fun e => h (e ▸ hk)
      simp [Obj.removeFields, List.filter_cons, hk, Obj.get, hne, Obj.removeFields] at ih ⊢
      exact ih
    · simp [Obj.removeFields, List.filter_cons, hk, Obj.get, Obj.removeFields] at ih ⊢
      by_cases he : k1 = k
      · simp [he]
      · simp [he, ih]

theorem Obj.get_applyModifier_notMem (o : Obj) (m : Modifier) (k : String)
    (h : k ∉ m.keys) :
    (o.applyModifier m).get k = o.get k := by
  simp only [Modifier.keys, List.mem_append, not_or] at h
  unfold Obj.applyModifier
  rw [Obj.get_removeFields_notMem _ _ _ h.2, Obj.get_foldlSet_notMem _ _ _ h.1]

theorem computeModifier_keys_subset (d : Obj) (fields : Obj) (k : String)
    (h : k ∈ (computeModifier d fields).keys) : k ∈ fields.map Prod.fst := by
  induction fields with
  | nil => simp [computeModifier, Modifier.keys] at h
  | cons kv rest ih =>
    obtain ⟨k1, v1⟩ := kv
    simp only [computeModifier] at h
    simp only [List.map_cons, List.mem_cons]
    split at h
    · exact Or.inr (ih h)
    · match v1, h with
      | none, h =>
        simp only [Modifier.keys, List.mem_append, List.mem_cons] at h
        rcases h with hs | (he | hu)
        · exact Or.inr (ih (by simp [Modifier.keys, hs]))
        · exact Or.inl he
        · exact Or.inr (ih (by simp [Modifier.keys, hu]))
      | some w, h =>
        simp only [Modifier.keys, List.map_cons, List.mem_append, List.mem_cons] at h
        rcases h with (he | hs) | hu
        · exact Or.inl he
        · exact Or.inr (ih (by simp [Modifier.keys, hs]))
        · exact Or.inr (ih (by simp [Modifier.keys, hu]))

theorem Docs.get_cons (i : String) (o : Obj) (rest : Docs) (id : String) :
    Docs.get ((i, o) :: rest) id = if i = id then some o else Docs.get rest id :=
  rfl

theorem Docs.applyModifier_cons (i : String) (o : Obj) (rest : Docs) (id : String)
    (m : Modifier) :
    Docs.applyModifier ((i, o) :: rest) id m =
      (if i = id then (i, o.applyModifier m) else (i, o)) :: Docs.applyModifier rest id m := by
  by_cases hi : i = id
  · simp [Docs.applyModifier, hi]
  · simp [Docs.applyModifier, hi]

theorem Docs.updateReplace_cons (i : String) (o : Obj) (rest : Docs) (id : String)
    (r : Obj) :
    Docs.updateReplace ((i, o) :: rest) id r =
      (if i = id then (i, r) else (i, o)) :: Docs.updateReplace rest id r := by
  by_cases hi : i = id
  · simp [Docs.updateReplace, hi]
  · simp [Docs.updateReplace, hi]

theorem Docs.get_applyModifier_self (ds : Docs) (id : String) (m : Modifier) (d : Obj)
    (hd : ds.get id = some d) :
    (ds.applyModifier id m).get id = some (d.applyModifier m) := by
  induction ds with
  | nil => exact absurd hd (by simp [Docs.get])
  | cons e rest ih =>
    obtain ⟨i, o⟩ := e
    rw [Docs.get_cons] at hd
    rw [Docs.applyModifier_cons]
    by_cases hi : i = id
    · rw [if_pos hi] at hd ⊢
      injection hd with h
      subst h
      rw [Docs.get_cons, if_pos hi]
    · rw [if_neg hi] at hd ⊢
      rw [Docs.get_cons, if_neg hi]
      exact ih hd

theorem Docs.get_applyModifier_ne (ds : Docs) (id id' : String) (m : Modifier)
    (h : id' ≠ id) :
    (ds.applyModifier id m).get id' = ds.get id' := by
  induction ds with
  | nil => rfl
  | cons e rest ih =>
    obtain ⟨i, o⟩ := e
    rw [Docs.applyModifier_cons]
    by_cases hi : i = id
    · have hne : ¬i = id' := by rw [hi]; exact Ne.symm h
      rw [if_pos hi, Docs.get_cons, Docs.get_cons, if_neg hne, if_neg hne]
      exact ih
    · rw [if_neg hi, Docs.get_cons, Docs.get_cons]
      by_cases he : i = id'
      · rw [if_pos he, if_pos he]
      · rw [if_neg he, if_neg he]
        exact ih

theorem Docs.get_updateReplace_self (ds : Docs) (id : String) (r : Obj) (d : Obj)
    (hd : ds.get id = some d) :
    (ds.updateReplace id r).get id = some r := by
  induction ds with
  | nil => exact absurd hd (by simp [Docs.get])
  | cons e rest ih =>
    obtain ⟨i, o⟩ := e
    rw [Docs.get_cons] at hd
    rw [Docs.updateReplace_cons]
    by_cases hi : i = id
    · rw [if_pos hi, Docs.get_cons, if_pos hi]
    · rw [if_neg hi] at hd
      rw [if_neg hi, Docs.get_cons, if_neg hi]
      exact ih hd

/-- Shared frame property of the `changed` dispatch on a present document:
the call succeeds, the document stays stored under its identifier with every
field outside the message's field set unchanged, and no other document is
touched. -/
theorem applyMsg_changed_present (ds : Docs) (id : String) (fields : Obj) (d : Obj)
    (hd : ds.get id = some d) :
    ∃ ds' ops, applyMsg ds (some d) (.changed id fields) = .ok (ds', ops) ∧
      (∃ d', ds'.get id = some d' ∧
        ∀ k, k ∉ fields.map Prod.fst → d'.get k = d.get k) ∧
      (∀ id', id' ≠ id → ds'.get id' = ds.get id') := by
  simp only [applyMsg]
  by_cases hlen : fields.length > 0
  · simp only [if_pos hlen]
    by_cases hemp : (computeModifier d fields).isEmpty = true
    · simp only [hemp, if_pos rfl]
      exact ⟨ds, [], rfl, ⟨d, hd, fun k _ => rfl⟩, fun id' _ => rfl⟩
    · simp only [hemp]
      refine ⟨ds.applyModifier id (computeModifier d fields),
        [.updateModOp id (computeModifier d fields)], rfl,
        ⟨d.applyModifier (computeModifier d fields),
          Docs.get_applyModifier_self ds id _ d hd, fun k hk => ?_⟩,
        fun id' hne => Docs.get_applyModifier_ne ds id id' _ hne⟩
      exact Obj.get_applyModifier_notMem d _ k
        (fun hm => hk (computeModifier_keys_subset d fields k hm))
  · simp only [if_neg hlen]
    exact ⟨ds, [], rfl, ⟨d, hd, fun k _ => rfl⟩, fun id' _ => rfl⟩

/-- Claim C1: in strict mode (the server-side store) applying a single
change message raises a fatal error if and only if the message is `added`
with a document already present under that identifier, `removed` with no
document present, `changed` with no document present, or of an unrecognized
kind; in every other case no error is raised. -/
theorem strict_update_error_iff (ds : Docs) (msg : Msg) :
    (∃ e, wrappedStoreServerUpdate ds msg = .error e) ↔
      ((∃ id fields, msg = .added id fields ∧ (ds.get id).isSome = true) ∨
       (∃ id, msg = .removed id ∧ ds.get id = none) ∨
       (∃ id fields, msg = .changed id fields ∧ ds.get id = none) ∨
       (∃ id, msg = .unknown id)) := by
  cases msg with
  | added id fields =>
    cases h : ds.get id with
    | none => simp [wrappedStoreServerUpdate, Msg.msgId, applyMsg, h]
    | some d => simp [wrappedStoreServerUpdate, Msg.msgId, applyMsg, h]
  | removed id =>
    cases h : ds.get id with
    | none => simp [wrappedStoreServerUpdate, Msg.msgId, applyMsg, h]
    | some d => simp [wrappedStoreServerUpdate, Msg.msgId, applyMsg, h]
  | changed id fields =>
    cases h : ds.get id with
    | none => simp [wrappedStoreServerUpdate, Msg.msgId, applyMsg, h]
    | some d =>
      simp only [wrappedStoreServerUpdate, Msg.msgId, applyMsg, h]
      constructor
      · rintro ⟨e, he⟩
        split_ifs at he
      · rintro (⟨_, _, heq, _⟩ | ⟨_, heq, _⟩ | ⟨_, _, heq, hnone⟩ | ⟨_, heq⟩)
        · exact absurd heq (by simp)
        · exact absurd heq (by simp)
        · obtain ⟨h1, h2⟩ := Msg.changed.inj heq
          subst h1
          rw [h] at hnone
          exact absurd hnone (by simp)
        · exact absurd heq (by simp)
  | replace id rep =>
    cases rep with
    | none =>
      cases h : ds.get id with
      | none => simp [wrappedStoreServerUpdate, Msg.msgId, applyMsg, h]
      | some d => simp [wrappedStoreServerUpdate, Msg.msgId, applyMsg, h]
    | some r =>
      cases h : ds.get id with
      | none => simp [wrappedStoreServerUpdate, Msg.msgId, applyMsg, h]
      | some d => simp [wrappedStoreServerUpdate, Msg.msgId, applyMsg, h]
  | unknown id =>
    simp [wrappedStoreServerUpdate, Msg.msgId, applyMsg]

/-- Concrete instances of claim C1: an unrecognized message errors, and an
`added` for a fresh identifier does not. -/
theorem strict_update_error_iff_witness :
    (∃ e, wrappedStoreServerUpdate [] (.unknown "u") = .error e) ∧
      ¬(∃ e, wrappedStoreServerUpdate [] (.added "u" []) = .error e) :=
  ⟨(strict_update_error_iff [] (.unknown "u")).2
      (Or.inr (Or.inr (Or.inr ⟨"u", rfl⟩))),
    fun he =>
      by
        rcases (strict_update_error_iff [] (.added "u" [])).1 he with
          ⟨_, _, heq, hs⟩ | ⟨_, heq, _⟩ | ⟨_, _, heq, _⟩ | ⟨_, heq⟩
        · obtain ⟨h1, _⟩ := Msg.added.inj heq
          subst h1
          simp [Docs.get] at hs
        · exact absurd heq (by simp)
        · exact absurd heq (by simp)
        · exact absurd heq (by simp)⟩

/-- Claim C2: in soft mode (the client-side store) an `added` for a present
document is processed as a `changed`; a `removed` for an absent document
changes nothing and raises no error; a `changed` for an absent document is
processed as an `added` after every field bound to the absent sentinel is
removed, so the inserted document contains only the defined fields. -/
theorem soft_update_normalization (ds : Docs) (id : String) (fields : Obj) :
    ((ds.get id).isSome = true →
      wrappedStoreClientUpdate ds (.added id fields) =
        wrappedStoreClientUpdate ds (.changed id fields)) ∧
    (ds.get id = none →
      wrappedStoreClientUpdate ds (.removed id) = .ok (ds, [])) ∧
    (ds.get id = none →
      wrappedStoreClientUpdate ds (.changed id fields) =
        .ok (ds.insert id (fields.filter (fun kv => kv.2.isSome)),
          [.insertOp id (fields.filter (fun kv => kv.2.isSome))]) ∧
      (ds.insert id (fields.filter (fun kv => kv.2.isSome))).get id =
        some (fields.filter (fun kv => kv.2.isSome)) ∧
      ∀ kv ∈ fields.filter (fun kv => kv.2.isSome), kv.2.isSome = true) := by
  refine ⟨?_, ?_, ?_⟩
  · intro hs
    cases h : ds.get id with
    | none => rw [h] at hs; simp at hs
    | some d =>
      simp [wrappedStoreClientUpdate, Msg.msgId, softNormalize, h]
  · intro h
    simp [wrappedStoreClientUpdate, Msg.msgId, softNormalize, h]
  · intro h
    refine ⟨?_, ?_, ?_⟩
    · simp [wrappedStoreClientUpdate, Msg.msgId, softNormalize, h, applyMsg]
    · rw [Docs.insert, Docs.get_cons, if_pos rfl]
    · intro kv hkv
      exact (List.mem_filter.mp hkv).2

/-- Concrete instances of claim C2, matching the spec's soft-merge
convergence examples. -/
theorem soft_update_normalization_witness :
    (wrappedStoreClientUpdate [("1", [("a", some (.vNum 1))])] (.added "1" [("a", some (.vNum 2))]) =
      wrappedStoreClientUpdate [("1", [("a", some (.vNum 1))])] (.changed "1" [("a", some (.vNum 2))])) ∧
    (wrappedStoreClientUpdate [] (.removed "1") = .ok ([], [])) ∧
    (wrappedStoreClientUpdate [] (.changed "1" [("a", some (.vNum 1)), ("b", none)]) =
      .ok ([("1", [("a", some (.vNum 1))])], [.insertOp "1" [("a", some (.vNum 1))]])) :=
  ⟨(soft_update_normalization [("1", [("a", some (.vNum 1))])] "1" [("a", some (.vNum 2))]).1
      (by rfl),
    (soft_update_normalization [] "1" []).2.1 rfl,
    (soft_update_normalization [] "1" [("a", some (.vNum 1)), ("b", none)]).2.2 rfl |>.1⟩

/-- Claim C3: in both stores a `replace` message removes the document when
the replacement is absent and a document exists, is a no-op when both are
absent, inserts the replacement when no document exists, and performs a
full-document update (old fields do not survive) when a document exists —
never raising an error. -/
theorem replace_update (isClient : Bool) (ds : Docs) (id : String) (rep : Option Obj) :
    (storeUpdate isClient ds (.replace id rep) =
      .ok (match rep, ds.get id with
        | none, some _ => (ds.remove id, [TableOp.removeOp id])
        | none, none => (ds, [])
        | some r, none => (ds.insert id r, [TableOp.insertOp id r])
        | some r, some _ => (ds.updateReplace id r, [TableOp.updateReplaceOp id r]))) ∧
    (∀ r d, rep = some r → ds.get id = some d →
      (ds.updateReplace id r).get id = some r) := by
  constructor
  · cases isClient <;> cases rep <;> cases h : ds.get id <;>
      simp [storeUpdate, wrappedStoreClientUpdate, wrappedStoreServerUpdate,
        Msg.msgId, softNormalize, applyMsg, h]
  · intro r d hr hd
    exact Docs.get_updateReplace_self ds id r d hd

/-- Per-field content of the delta computed by the `changed` branch: a field
equal to its current value contributes no entry, a field bound to the absent
sentinel and differing from the current value contributes an unset entry,
and a defined field differing from the current value contributes a set
entry. -/
theorem computeModifier_mem_spec (d : Obj) (fields : Obj) (k : String) (v : Option Value)
    (hnd : (fields.map Prod.fst).Nodup) (hmem : (k, v) ∈ fields) :
    (d.get k = v →
      k ∉ (computeModifier d fields).unset ∧
      k ∉ (computeModifier d fields).set.map Prod.fst) ∧
    (v = none → d.get k ≠ none →
      k ∈ (computeModifier d fields).unset ∧
      k ∉ (computeModifier d fields).set.map Prod.fst) ∧
    (∀ w, v = some w → d.get k ≠ some w →
      (k, w) ∈ (computeModifier d fields).set ∧
      k ∉ (computeModifier d fields).unset) := by
  induction fields with
  | nil => simp at hmem
  | cons kv rest ih =>
    obtain ⟨k1, v1⟩ := kv
    simp only [List.map_cons, List.nodup_cons] at hnd
    obtain ⟨hk1, hndr⟩ := hnd
    rcases List.mem_cons.mp hmem with heq | hmem'
    · have hk : k = k1 := congrArg Prod.fst heq
      have hv : v = v1 := congrArg Prod.snd heq
      subst hk
      subst hv
      have hku : k ∉ (computeModifier d rest).unset := fun hu =>
        hk1 (computeModifier_keys_subset d rest k
          (by simp only [Modifier.keys, List.mem_append]; exact Or.inr hu))
      have hks : k ∉ (computeModifier d rest).set.map Prod.fst := fun hs =>
        hk1 (computeModifier_keys_subset d rest k
          (by simp only [Modifier.keys, List.mem_append]; exact Or.inl hs))
      refine ⟨?_, ?_, ?_⟩
      · intro hget
        have he : ejsonEquals (d.get k) v = true := by simp [ejsonEquals, hget]
        simp only [computeModifier, he, if_true]
        exact ⟨hku, hks⟩
      · intro hv0 hget
        subst hv0
        have he : ejsonEquals (d.get k) none = false := by
          simp only [ejsonEquals, decide_eq_false_iff_not]
          exact hget
        simp only [computeModifier, he, Bool.false_eq_true, if_false]
        exact ⟨List.mem_cons_self _ _, hks⟩
      · intro w hvw hget
        subst hvw
        have he : ejsonEquals (d.get k) (some w) = false := by
          simp only [ejsonEquals, decide_eq_false_iff_not]
          exact hget
        simp only [computeModifier, he, Bool.false_eq_true, if_false]
        exact ⟨List.mem_cons_self _ _, hku⟩
    · have hkmem : k ∈ rest.map Prod.fst := List.mem_map_of_mem Prod.fst hmem'
      have hne : k1 ≠ k := fun e => hk1 (e ▸ hkmem)
      obtain ⟨ih1, ih2, ih3⟩ := ih hndr hmem'
      by_cases he : ejsonEquals (d.get k1) v1 = true
      · simp only [computeModifier, he, if_true]
        exact ⟨ih1, ih2, ih3⟩
      · rw [Bool.not_eq_true] at he
        simp only [computeModifier, he, Bool.false_eq_true, if_false]
        cases v1 with
        | none =>
          refine ⟨?_, ?_, ?_⟩
          · intro hget
            obtain ⟨h1, h2⟩ := ih1 hget
            exact ⟨by simp [List.mem_cons, Ne.symm hne, h1], h2⟩
          · intro hv0 hget
            obtain ⟨h1, h2⟩ := ih2 hv0 hget
            exact ⟨List.mem_cons_of_mem _ h1, h2⟩
          · intro w hvw hget
            obtain ⟨h1, h2⟩ := ih3 w hvw hget
            exact ⟨h1, by simp [List.mem_cons, Ne.symm hne, h2]⟩
        | some w1 =>
          refine ⟨?_, ?_, ?_⟩
          · intro hget
            obtain ⟨h1, h2⟩ := ih1 hget
            exact ⟨h1, by simp [List.mem_cons, Ne.symm hne, h2]⟩
          · intro hv0 hget
            obtain ⟨h1, h2⟩ := ih2 hv0 hget
            exact ⟨h1, by simp [List.mem_cons, Ne.symm hne, h2]⟩
          · intro w hvw hget
            obtain ⟨h1, h2⟩ := ih3 w hvw hget
            refine ⟨List.mem_cons_of_mem _ h1, h2⟩

/-- Claim C4: for a `changed` message on an existing document the computed
modifier contains, per message field, an unset entry exactly when the value
is the absent sentinel and differs from the current value, a set entry
exactly when the value is defined and differs from the current value, and
no entry when the value equals the current value; when the modifier is
empty (including an empty field set) no table operation is performed. -/
theorem changed_modifier_spec (mode : Bool) (ds : Docs) (id : String) (fields : Obj)
    (d : Obj) (hd : ds.get id = some d) (hnd : (fields.map Prod.fst).Nodup) :
    (∀ k v, (k, v) ∈ fields →
      (d.get k = v →
        k ∉ (computeModifier d fields).unset ∧
        k ∉ (computeModifier d fields).set.map Prod.fst) ∧
      (v = none → d.get k ≠ none →
        k ∈ (computeModifier d fields).unset ∧
        k ∉ (computeModifier d fields).set.map Prod.fst) ∧
      (∀ w, v = some w → d.get k ≠ some w →
        (k, w) ∈ (computeModifier d fields).set ∧
        k ∉ (computeModifier d fields).unset)) ∧
    ((computeModifier d fields).isEmpty = true →
      storeUpdate mode ds (.changed id fields) = .ok (ds, [])) := by
  constructor
  · intro k v hmem
    exact computeModifier_mem_spec d fields k v hnd hmem
  · intro hemp
    cases mode with
    | false =>
      simp only [storeUpdate, Bool.false_eq_true, if_false, wrappedStoreServerUpdate,
        Msg.msgId, applyMsg, hd]
      by_cases hlen : fields.length > 0
      · simp [hlen, hemp]
      · simp [hlen]
    | true =>
      simp only [storeUpdate, if_true, wrappedStoreClientUpdate, Msg.msgId,
        softNormalize, hd, applyMsg]
      by_cases hlen : fields.length > 0
      · simp [hlen, hemp]
      · simp [hlen]

/-- Concrete instances of claim C4: a field kept equal is skipped, an
absent-sentinel field is unset, a differing defined field is set, and an
all-equal field set performs no table operation. -/
theorem changed_modifier_spec_witness :
    ("x" ∈ (computeModifier [("a", some (.vNum 1)), ("x", some (.vNum 5))]
        [("a", some (.vNum 1)), ("x", none), ("c", some (.vNum 2))]).unset ∧
      "x" ∉ (computeModifier [("a", some (.vNum 1)), ("x", some (.vNum 5))]
        [("a", some (.vNum 1)), ("x", none), ("c", some (.vNum 2))]).set.map Prod.fst) ∧
    (("c", Value.vNum 2) ∈ (computeModifier [("a", some (.vNum 1)), ("x", some (.vNum 5))]
        [("a", some (.vNum 1)), ("x", none), ("c", some (.vNum 2))]).set) ∧
    ("a" ∉ (computeModifier [("a", some (.vNum 1)), ("x", some (.vNum 5))]
        [("a", some (.vNum 1)), ("x", none), ("c", some (.vNum 2))]).unset) ∧
    storeUpdate false [("1", [("a", some (.vNum 1))])] (.changed "1" [("a", some (.vNum 1))]) =
      .ok ([("1", [("a", some (.vNum 1))])], []) := by
  have h := changed_modifier_spec false [("1", [("a", some (.vNum 1)), ("x", some (.vNum 5))])]
    "1" [("a", some (.vNum 1)), ("x", none), ("c", some (.vNum 2))]
    [("a", some (.vNum 1)), ("x", some (.vNum 5))] rfl (by decide)
  have h2 := changed_modifier_spec false [("1", [("a", some (.vNum 1))])]
    "1" [("a", some (.vNum 1))] [("a", some (.vNum 1))] rfl (by decide)
  refine ⟨(h.1 "x" none (by decide)).2.1 rfl (by decide), ?_, ?_, h2.2 (by decide)⟩
  · exact ((h.1 "c" (some (.vNum 2)) (by decide)).2.2 (.vNum 2) rfl (by decide)).1
  · exact ((h.1 "a" (some (.vNum 1)) (by decide)).1 (by decide)).1

/-- Concrete instance of claim C3: a `replace` over an existing document is
a full-document update. -/
theorem replace_update_witness :
    (storeUpdate false [("1", [("a", some (.vNum 1))])]
        (.replace "1" (some [("b", some (.vNum 2))])) =
      .ok ([("1", [("b", some (.vNum 2))])], [.updateReplaceOp "1" [("b", some (.vNum 2))]])) ∧
    (Docs.updateReplace [("1", [("a", some (.vNum 1))])] "1" [("b", some (.vNum 2))]).get "1" =
      some [("b", some (.vNum 2))] := by
  have h := replace_update false [("1", [("a", some (.vNum 1))])] "1"
    (some [("b", some (.vNum 2))])
  exact ⟨h.1, h.2 [("b", some (.vNum 2))] [("a", some (.vNum 1))] rfl rfl⟩

/-- Claim C5: `beginUpdate(batchSize, reset)` pauses observer notifications
exactly when `batchSize > 1` or `reset` is true; when `reset` is true every
document is removed (after pausing), so a reset of an already-empty table is
a no-op on the documents and two resets in sequence yield the same empty
table. -/
theorem beginUpdate_spec (t : Table) (batchSize : Nat) (reset : Bool) :
    (t.paused = false →
      ((beginUpdate t batchSize reset).paused = true ↔
        (1 < batchSize ∨ reset = true))) ∧
    (reset = true →
      (beginUpdate t batchSize reset).docs = [] ∧
      (beginUpdate t batchSize reset).paused = true) ∧
    (t.docs = [] → reset = true →
      (beginUpdate t batchSize reset).docs = t.docs) ∧
    (∀ n2, beginUpdate (beginUpdate t batchSize true) n2 true =
      beginUpdate t batchSize true ∧
      (beginUpdate t batchSize true).docs = []) := by
  refine ⟨?_, ?_, ?_, ?_⟩
  · intro hp
    cases reset with
    | true => simp [beginUpdate, Table.pauseObservers, Docs.removeAll]
    | false =>
      by_cases hb : batchSize > 1
      · simp [beginUpdate, Table.pauseObservers, hb]
      · simp only [beginUpdate, hb]
        simp [hp, hb]
  · intro hr
    subst hr
    simp [beginUpdate, Table.pauseObservers, Docs.removeAll]
  · intro hd hr
    subst hr
    simp [beginUpdate, Table.pauseObservers, Docs.removeAll, hd]
  · intro n2
    simp [beginUpdate, Table.pauseObservers, Docs.removeAll]

/-- Concrete instances of claim C5: a reset batch pauses and clears, a
singleton non-reset batch does not pause. -/
theorem beginUpdate_spec_witness :
    ((beginUpdate ⟨[("1", [])], false⟩ 1 true).paused = true ↔
      (1 < 1 ∨ True = True ∧ true = true)) ∧
    (beginUpdate ⟨[("1", [])], false⟩ 1 true).docs = [] ∧
    ((beginUpdate ⟨[("1", [])], false⟩ 1 false).paused = true ↔ (1 < 1 ∨ false = true)) := by
  have h := beginUpdate_spec ⟨[("1", [])], false⟩ 1 true
  have h2 := beginUpdate_spec ⟨[("1", [])], false⟩ 1 false
  refine ⟨?_, (h.2.1 rfl).1, h2.1 rfl⟩
  have := h.1 rfl
  simp [this]

/-- Claim C6: the selector rewriting guard raises a fatal error on an array
selector; rewrites a falsy selector, or a selector object whose `_id` field
is present but falsy, to a selector on the supplied fallback identifier
when one is given and a fresh random identifier otherwise; and returns
every other selector unchanged, after expanding an identifier-like scalar
to a selector on that identifier. -/
theorem rewriteSelector_spec (freshId : String) (fb : Option String)
    (hfb : ∀ s, fb = some s → s ≠ "") :
    (∀ l, rewriteSelector freshId fb (.arr l) =
      .error "Mongo selector cant be an array.") ∧
    (rewriteSelector freshId fb .falsyPrim =
      .ok (.obj [("_id", some (.vStr (fb.getD freshId)))])) ∧
    (∀ o, o.hasKey "_id" = true → jsFalsyOpt (o.get "_id") = true →
      rewriteSelector freshId fb (.obj o) =
        .ok (.obj [("_id", some (.vStr (fb.getD freshId)))])) ∧
    (∀ o, (o.hasKey "_id" = true → jsFalsyOpt (o.get "_id") = false) →
      rewriteSelector freshId fb (.obj o) = .ok (.obj o)) ∧
    (∀ v, rewriteSelector freshId fb (.scalar v) =
      rewriteSelector freshId fb (.obj [("_id", some v.toValue)])) := by
  have hjs : jsOr fb freshId = fb.getD freshId := by
    cases fb with
    | none => rfl
    | some s =>
      simp only [jsOr, Option.getD_some]
      exact if_neg (hfb s rfl)
  refine ⟨fun l => rfl, ?_, ?_, ?_, fun v => rfl⟩
  · simp [rewriteSelector, hjs]
  · intro o hk hf
    simp [rewriteSelector, hk, hf, hjs]
  · intro o himp
    by_cases hk : o.hasKey "_id" = true
    · simp [rewriteSelector, hk, himp hk]
    · simp only [Bool.not_eq_true] at hk
      simp [rewriteSelector, hk]

/-- Concrete instances of claim C6: an array errors, a falsy-`_id` selector
object gets a fresh identifier, a plain selector passes through, a scalar
is expanded. -/
theorem rewriteSelector_spec_witness :
    (rewriteSelector "R" none (.arr []) = .error "Mongo selector cant be an array.") ∧
    (rewriteSelector "R" none (.obj [("_id", none)]) =
      .ok (.obj [("_id", some (.vStr "R"))])) ∧
    (rewriteSelector "R" none (.obj [("a", some (.vNum 1))]) =
      .ok (.obj [("a", some (.vNum 1))])) ∧
    (rewriteSelector "R" none (.scalar (.iStr "x")) =
      rewriteSelector "R" none (.obj [("_id", some (.vStr "x"))])) := by
  have h := rewriteSelector_spec "R" none (fun s hs => nomatch hs)
  exact ⟨h.1 [], h.2.2.1 [("_id", none)] rfl rfl,
    h.2.2.2.1 [("a", some (.vNum 1))] (by decide),
    h.2.2.2.2 (.iStr "x")⟩

/-- Claim C7: the snapshot publisher forwards live-query events to the
subscriber exactly through `added(collection, id, fields)`,
`changed(collection, id, fields)` and `removed(collection, id)`, passing
identifier and fields through unchanged; it observes with non-mutating
callbacks, its registered stop callback stops the observe handle, and it
never declares the subscription ready. -/
theorem publishCursor_spec (collection : String) (events : List CursorEvent) :
    (∀ call ∈ publishCursorForward collection events, call ≠ SubCall.ready) ∧
    (∀ id fields, publishCursorCallback collection (.added id fields) =
      .added collection id fields) ∧
    (∀ id fields, publishCursorCallback collection (.changed id fields) =
      .changed collection id fields) ∧
    (∀ id, publishCursorCallback collection (.removed id) =
      .removed collection id) ∧
    publishCursorNonMutatingCallbacks = true ∧
    (∀ h, (publishCursorOnStop h).stopped = true) := by
  refine ⟨?_, fun id fields => rfl, fun id fields => rfl, fun id => rfl, rfl, fun h => rfl⟩
  intro call hc
  obtain ⟨ev, _, hev⟩ := List.mem_map.mp hc
  subst hev
  cases ev <;> simp [publishCursorCallback]

/-- Concrete instance of claim C7: a forwarded `added` event is not a
`ready` call and carries the identifier and fields unchanged. -/
theorem publishCursor_spec_witness :
    (SubCall.added "c" "1" [("a", some (.vNum 1))] ≠ SubCall.ready) ∧
    publishCursorCallback "c" (.added "1" [("a", some (.vNum 1))]) =
      .added "c" "1" [("a", some (.vNum 1))] := by
  have h := publishCursor_spec "c" [.added "1" [("a", some (.vNum 1))]]
  exact ⟨h.1 (SubCall.added "c" "1" [("a", some (.vNum 1))]) (by decide),
    h.2.1 "1" [("a", some (.vNum 1))]⟩

/-- Claim C8: a falsy store registration result — returned directly or as a
resolved promise — makes the collection setup log a warning without
throwing; a successful registration produces no warning. -/
theorem registration_conflict_warns (r : RegisterStoreResult) :
    (maybeSetUpReplication r = .ok true ↔
      (r = .direct false ∨ r = .promise false)) ∧
    (∀ e, maybeSetUpReplication r ≠ .error e) := by
  cases r with
  | direct ok => cases ok <;> simp [maybeSetUpReplication]
  | promise ok => cases ok <;> simp [maybeSetUpReplication]

/-- Concrete instances of claim C8: a falsy direct result warns, a
successful promise result does not. -/
theorem registration_conflict_warns_witness :
    maybeSetUpReplication (.direct false) = .ok true ∧
      ¬maybeSetUpReplication (.promise true) = .ok true := by
  refine ⟨(registration_conflict_warns (.direct false)).1.mpr (Or.inl rfl), fun h => ?_⟩
  rcases (registration_conflict_warns (.promise true)).1.mp h with h1 | h1 <;>
    exact absurd h1 (by simp)

/-- Claim C9: in soft mode an `added` message for an already-present
document is a partial merge — the call succeeds and every field of the
existing document not named in the message keeps its current value. -/
theorem soft_added_partial_merge (ds : Docs) (id : String) (fields : Obj) (d : Obj)
    (hd : ds.get id = some d) :
    ∃ ds' ops, wrappedStoreClientUpdate ds (.added id fields) = .ok (ds', ops) ∧
      ∃ d', ds'.get id = some d' ∧
        ∀ k, k ∉ fields.map Prod.fst → d'.get k = d.get k := by
  obtain ⟨ds', ops, happ, hframe, _⟩ := applyMsg_changed_present ds id fields d hd
  refine ⟨ds', ops, ?_, hframe⟩
  simp only [wrappedStoreClientUpdate, Msg.msgId, hd, softNormalize]
  exact happ

/-- Concrete instance of claim C9: merging `{a: 3}` over `{a: 1, b: 2}`
leaves a document whose `b` field still reads `2`. -/
theorem soft_added_partial_merge_witness :
    ∃ ds' ops,
      wrappedStoreClientUpdate [("1", [("a", some (.vNum 1)), ("b", some (.vNum 2))])]
        (.added "1" [("a", some (.vNum 3))]) = .ok (ds', ops) ∧
      ∃ d', ds'.get "1" = some d' ∧
        ∀ k, k ∉ ["a"] → d'.get k = Obj.get [("a", some (.vNum 1)), ("b", some (.vNum 2))] k :=
  soft_added_partial_merge [("1", [("a", some (.vNum 1)), ("b", some (.vNum 2))])]
    "1" [("a", some (.vNum 3))] [("a", some (.vNum 1)), ("b", some (.vNum 2))] rfl

/-- Claim C10: a `changed` message applied to an existing document, in
either mode, succeeds, keeps the document stored under its identifier with
every field outside the message's field set unchanged, and modifies no
other document. -/
theorem changed_frame (mode : Bool) (ds : Docs) (id : String) (fields : Obj) (d : Obj)
    (hd : ds.get id = some d) :
    ∃ ds' ops, storeUpdate mode ds (.changed id fields) = .ok (ds', ops) ∧
      (∃ d', ds'.get id = some d' ∧
        ∀ k, k ∉ fields.map Prod.fst → d'.get k = d.get k) ∧
      (∀ id', id' ≠ id → ds'.get id' = ds.get id') := by
  obtain ⟨ds', ops, happ, hframe, hothers⟩ := applyMsg_changed_present ds id fields d hd
  refine ⟨ds', ops, ?_, hframe, hothers⟩
  cases mode with
  | false =>
    simp only [storeUpdate, Bool.false_eq_true, if_false, wrappedStoreServerUpdate,
      Msg.msgId, hd]
    exact happ
  | true =>
    simp only [storeUpdate, if_true, wrappedStoreClientUpdate, Msg.msgId, hd,
      softNormalize]
    exact happ

/-- Concrete instance of claim C10: changing document `1` leaves document
`2` and the unnamed field `b` untouched in strict mode. -/
theorem changed_frame_witness :
    ∃ ds' ops,
      storeUpdate false
          [("1", [("a", some (.vNum 1)), ("b", some (.vNum 2))]), ("2", [("c", some (.vNum 7))])]
          (.changed "1" [("a", some (.vNum 9))]) = .ok (ds', ops) ∧
      (∃ d', ds'.get "1" = some d' ∧
        ∀ k, k ∉ ["a"] → d'.get k = Obj.get [("a", some (.vNum 1)), ("b", some (.vNum 2))] k) ∧
      (∀ id', id' ≠ "1" →
        ds'.get id' = Docs.get
          [("1", [("a", some (.vNum 1)), ("b", some (.vNum 2))]), ("2", [("c", some (.vNum 7))])] id') :=
  changed_frame false
    [("1", [("a", some (.vNum 1)), ("b", some (.vNum 2))]), ("2", [("c", some (.vNum 7))])]
    "1" [("a", some (.vNum 9))] [("a", some (.vNum 1)), ("b", some (.vNum 2))] rfl

end Meteor
